import Mathlib

/-!
Shallow embedding of the trivia command module (`uqcsbot/scripts/trivia.py`):
the reaction-tally resolution (`get_correct_users`), the leaderboard update
(`update_leaderboard`), question construction (`get_question_data`), the
seconds clamp (`parse_arguments` / `trivia_cron_job`), reveal scheduling
(`schedule_action`) and leaderboard rendering (`show_leaderboard`).
Python sets are modelled as `Finset String`, database rows as lists of
records, and Python exceptions as `Option` results.
-/

set_option autoImplicit false

namespace Trivia

/-- Customisation option `MIN_SECONDS = 5` from the source. -/
def MIN_SECONDS : Int := 5

/-- Customisation option `MAX_SECONDS = 300` from the source. -/
def MAX_SECONDS : Int := 300

/-- Cron-job delay `CRON_SECONDS = 600`; the source comment says it overrides
any `-s` argument and ignores the `MAX_SECONDS` rule. -/
def CRON_SECONDS : Int := 600

/-- Reaction pair for boolean questions, format `[ <True>, <False> ]`. -/
def BOOLEAN_REACTS : List String := ["this", "not-this"]

/-- Reaction markers for multiple-choice questions. -/
def MULTIPLE_CHOICE_REACTS : List String :=
  ["green_heart", "yellow_heart", "heart", "blue_heart"]

/-- NamedTuple `ReactionUsers(name, users)`: one reaction and the set of users
who used it. -/
structure ReactionUsers where
  name : String
  users : Finset String
  deriving DecidableEq

/-- First loop of `get_correct_users`: scan the reaction list and return the
user set of the first entry whose name equals `correct_reaction`, `none`
when the loop falls through with `correct_users` still `None`. -/
def findCorrectUsers (reactions : List ReactionUsers) (correct_reaction : String) :
    Option (Finset String) :=
  match reactions with
  | [] => none
  | r :: rs =>
      if r.name = correct_reaction then some r.users
      else findCorrectUsers rs correct_reaction

/-- Test `correct_reaction == BOOLEAN_REACTS[0] or correct_reaction == BOOLEAN_REACTS[1]`
from `get_correct_users`. -/
def is_boolean_reaction (correct_reaction : String) : Bool :=
  correct_reaction == BOOLEAN_REACTS.getD 0 "" ||
    correct_reaction == BOOLEAN_REACTS.getD 1 ""

/-- Choice `valid_reactions = BOOLEAN_REACTS if is_boolean else MULTIPLE_CHOICE_REACTS`
from `get_correct_users`. -/
def valid_reactions (correct_reaction : String) : List String :=
  if is_boolean_reaction correct_reaction then BOOLEAN_REACTS
  else MULTIPLE_CHOICE_REACTS

/-- Embedding of `get_correct_users(reactions, correct_reaction)`: take the user
set of the correct reaction (empty result when absent), then subtract the user
set of every other reaction whose name lies in the valid-reaction family. -/
def get_correct_users (reactions : List ReactionUsers) (correct_reaction : String) :
    Finset String :=
  match findCorrectUsers reactions correct_reaction with
  | none => ∅
  | some cu =>
      reactions.foldl
        (fun acc r =>
          if r.name ≠ correct_reaction ∧ r.name ∈ valid_reactions correct_reaction then
            acc \ r.users
          else acc)
        cu

/-- Tally lookup used to state what `get_correct_users` computes: the user set
recorded for a marker, empty when the marker is absent. -/
def tally_users (reactions : List ReactionUsers) (marker : String) : Finset String :=
  (findCorrectUsers reactions marker).getD ∅

/-- Union of the user sets of every tally entry other than the correct marker
whose name lies in the correct marker's family; this phrases the spec's
"every user who also reacted with any other marker of the same answer
family". -/
def other_family_users : List ReactionUsers → String → Finset String
  | [], _ => ∅
  | r :: rs, correct_reaction =>
      (if r.name ≠ correct_reaction ∧ r.name ∈ valid_reactions correct_reaction then
        r.users
      else ∅) ∪ other_family_users rs correct_reaction

/-- Raw provider question record as used by `get_question_data` after base64
decoding: the `type`, `question`, `correct_answer` and `incorrect_answers`
fields of `response_content['results'][0]`. -/
structure ProviderQuestion where
  type : String
  question : String
  correct_answer : String
  incorrect_answers : List String
  deriving DecidableEq

/-- NamedTuple `QuestionData(type, question, correct_answer, answers, is_boolean)`. -/
structure QuestionData where
  type : String
  question : String
  correct_answer : String
  answers : List String
  is_boolean : Bool
  deriving DecidableEq

/-- Construction of the `QuestionData` inside `get_question_data`:
`is_boolean = len(incorrect_answers) == 1` and
`answers = [correct_answer] + incorrect_answers`. The later in-place
`random.shuffle(question_data.answers)` is modelled by quantifying over
permutations of `answers` in the theorems. -/
def get_question_data (r : ProviderQuestion) : QuestionData :=
  { type := r.type
    question := r.question
    correct_answer := r.correct_answer
    answers := r.correct_answer :: r.incorrect_answers
    is_boolean := r.incorrect_answers.length == 1 }

/-- Row of the `trivia_leaderboard` table (`UserScore`): unique `user_id` and
integer `score`. -/
structure UserScore where
  user_id : String
  score : Int
  deriving DecidableEq

/-- Store-update portion of `update_leaderboard`: every queried row whose
`user_id` is in `correct_users` gets `score += 1`, and a new row with score 1
is added for each id in `correct_users - existing_user_ids`. Python's set
iteration order is unspecified; the embedding determinizes it by sorting. -/
def applyScores (store : List UserScore) (correct_users : Finset String) :
    List UserScore :=
  let existing_users := store.filter (fun u => u.user_id ∈ correct_users)
  let updated := store.map
    (fun u => if u.user_id ∈ correct_users then { u with score := u.score + 1 } else u)
  let existing_user_ids : Finset String :=
    existing_users.foldl (fun s u => insert u.user_id s) ∅
  updated ++ ((correct_users \ existing_user_ids).sort (· ≤ ·)).map
    (fun uid => { user_id := uid, score := 1 })

/-- Score recorded for a user in the store, `none` when the user has no row. -/
def getScore (store : List UserScore) (uid : String) : Option Int :=
  (store.find? (fun u => u.user_id == uid)).map UserScore.score

/-- Result of `bot.api.reactions.get(channel, timestamp)` as read by
`update_leaderboard`: the `ok` flag, the `type` field and the
`message.reactions` list. -/
structure ReactionQuery where
  ok : Bool
  type : String
  reactions : List ReactionUsers

/-- Embedding of `update_leaderboard`: on `not ok or type != 'message'` it
posts the failure message and returns with the store untouched; otherwise it
applies `applyScores` to the correct users and posts nothing. The second
component collects the messages posted. -/
def update_leaderboard (q : ReactionQuery) (store : List UserScore)
    (correct_reaction : String) : List UserScore × List String :=
  if q.ok = false ∨ q.type ≠ "message" then
    (store, ["There was a problem updating the scores"])
  else
    (applyScores store (get_correct_users q.reactions correct_reaction), [])

/-- Scheduled callback `post_answer_update_score` from `handle_question`: run
`update_leaderboard`, then post the answer message. -/
def post_answer_update_score (q : ReactionQuery) (store : List UserScore)
    (correct_reaction answer_message : String) : List UserScore × List String :=
  let result := update_leaderboard q store correct_reaction
  (result.1, result.2 ++ [answer_message])

/-- Python `max(names, key=len)`: first element of maximal length, a
`ValueError` (modelled as `none`) on an empty sequence. -/
def maxByLen (names : List String) : Option String :=
  match names with
  | [] => none
  | n :: ns => some (ns.foldl (fun best x => if x.length > best.length then x else best) n)

/-- Python `s.ljust(width)` as used by the `{: <{}}` format specifier. -/
def ljust (s : String) (width : Nat) : String :=
  s ++ String.mk (List.replicate (width - s.length) ' ')

/-- Row sequence rendered by `show_leaderboard`: the zip of
`display_names` and `scores`, both mapped off `user_scores` in query order. -/
def leaderboard_rows (user_scores : List UserScore) (display_name : String → String) :
    List (String × Int) :=
  List.zip (user_scores.map (fun u => display_name u.user_id))
    (user_scores.map UserScore.score)

/-- Embedding of `show_leaderboard`'s message construction: compute
`longest_name = max(len(max(display_names, key=len)), 4)` (a `ValueError`,
modelled as `none`, when the store holds no rows), then build the header,
the dash rule of length `len(message) - 5`, and one line per record. -/
def show_leaderboard_message (user_scores : List UserScore)
    (display_name : String → String) : Option String :=
  let display_names := user_scores.map (fun u => display_name u.user_id)
  match maxByLen display_names with
  | none => none
  | some longest =>
      let longest_name := max longest.length 4
      let header := "```\n" ++ ljust "Name" longest_name ++ "  |  Score\n"
      let message := header ++ String.mk (List.replicate (header.length - 5) '-') ++ "\n"
      let body := (leaderboard_rows user_scores display_name).foldl
        (fun m row => m ++ ljust row.1 longest_name ++ "  |  " ++ toString row.2 ++ "\n")
        message
      some (body ++ "```")

/-- Predicate taken from the spec sentence for the leaderboard order: no row
that appears later has a strictly higher score than an earlier row. -/
def sortedByDescendingScore (rows : List (String × Int)) : Prop :=
  rows.Pairwise (fun a b => b.2 ≤ a.2)

/-- Clamp applied by `parse_arguments`:
`args.seconds = max(MIN_SECONDS, args.seconds)` then
`args.seconds = min(args.seconds, MAX_SECONDS)`. -/
def clamp_seconds (s : Int) : Int :=
  min (max MIN_SECONDS s) MAX_SECONDS

/-- Delay used by `trivia_cron_job`: it parses `CRON_ARGUMENTS` (which leaves
the default 30, clamped) and then overwrites `args.seconds = CRON_SECONDS`. -/
def cron_job_seconds : Int :=
  CRON_SECONDS

/-- End date set by `schedule_action`: `now + timedelta(seconds=secs + 1)`. -/
def schedule_end_date (now : Int) (secs : Int) : Int :=
  now + secs + 1

/-- Fire time of the k-th firing of the interval job registered by
`schedule_action` with `seconds=secs`: the interval trigger first fires one
period after registration. -/
def interval_fire_time (now : Int) (secs : Int) (k : Nat) : Int :=
  now + k * secs

/-- An interval firing happens only while it does not lie past the job's
end date. -/
def interval_job_fires (now : Int) (secs : Int) (k : Nat) : Prop :=
  interval_fire_time now secs k ≤ schedule_end_date now secs

end Trivia

namespace Trivia

/-- Scan result of the first loop when no entry carries the correct marker. -/
theorem findCorrectUsers_eq_none (reactions : List ReactionUsers) (correct_reaction : String)
    (h : ∀ r ∈ reactions, r.name ≠ correct_reaction) :
    findCorrectUsers reactions correct_reaction = none := by
  induction reactions with
  | nil => rfl
  | cons r rs ih =>
      rw [findCorrectUsers, if_neg (h r (List.mem_cons_self r rs))]
      exact ih fun x hx => h x (List.mem_cons_of_mem r hx)

/-- Membership in the union of the other family markers' user sets. -/
theorem mem_other_family_users (reactions : List ReactionUsers) (correct_reaction : String)
    (u : String) :
    u ∈ other_family_users reactions correct_reaction ↔
      ∃ e ∈ reactions,
        (e.name ≠ correct_reaction ∧ e.name ∈ valid_reactions correct_reaction) ∧
          u ∈ e.users := by
  induction reactions with
  | nil => simp [other_family_users]
  | cons r rs ih =>
      by_cases h : r.name ≠ correct_reaction ∧ r.name ∈ valid_reactions correct_reaction
      · simp only [other_family_users, if_pos h, Finset.mem_union, ih, List.mem_cons]
        constructor
        · rintro (hu | ⟨e, he, hP, hu⟩)
          · exact ⟨r, Or.inl rfl, h, hu⟩
          · exact ⟨e, Or.inr he, hP, hu⟩
        · rintro ⟨e, he | he, hP, hu⟩
          · subst he
            exact Or.inl hu
          · exact Or.inr ⟨e, he, hP, hu⟩
      · simp only [other_family_users, if_neg h, Finset.empty_union, ih, List.mem_cons]
        constructor
        · rintro ⟨e, he, hP, hu⟩
          exact ⟨e, Or.inr he, hP, hu⟩
        · rintro ⟨e, he | he, hP, hu⟩
          · exact absurd (he ▸ hP) h
          · exact ⟨e, he, hP, hu⟩

/-- Disqualification loop of `get_correct_users` as a set difference. -/
theorem foldl_sdiff_other_family (correct_reaction : String) (l : List ReactionUsers)
    (cu : Finset String) :
    l.foldl (fun acc r =>
        if r.name ≠ correct_reaction ∧ r.name ∈ valid_reactions correct_reaction then
          acc \ r.users
        else acc) cu
      = cu \ other_family_users l correct_reaction := by
  induction l generalizing cu with
  | nil => simp [other_family_users]
  | cons r rs ih =>
      by_cases h : r.name ≠ correct_reaction ∧ r.name ∈ valid_reactions correct_reaction
      · simp only [List.foldl_cons, other_family_users, if_pos h, ih]
        rw [sdiff_sdiff_left, Finset.sup_eq_union]
      · simp only [List.foldl_cons, other_family_users, if_neg h, ih, Finset.empty_union]

/-- C1: `get_correct_users` returns exactly the users of the correct marker
minus every user who also reacted with any other marker of the correct
marker's answer family; markers outside the family never remove anyone, and a
user who reacted with two distinct family markers never appears in the
result. -/
theorem claim_c1 (reactions : List ReactionUsers) (correct_reaction : String) :
    get_correct_users reactions correct_reaction =
        tally_users reactions correct_reaction \
          other_family_users reactions correct_reaction ∧
    (∀ u : String, u ∈ get_correct_users reactions correct_reaction ↔
        u ∈ tally_users reactions correct_reaction ∧
          ∀ e ∈ reactions, e.name ≠ correct_reaction →
            e.name ∈ valid_reactions correct_reaction → u ∉ e.users) ∧
    ∀ e1 ∈ reactions, ∀ e2 ∈ reactions,
      e1.name ∈ valid_reactions correct_reaction →
      e2.name ∈ valid_reactions correct_reaction → e1.name ≠ e2.name →
      ∀ u ∈ e1.users, u ∈ e2.users →
        u ∉ get_correct_users reactions correct_reaction := by
  have heq : get_correct_users reactions correct_reaction =
      tally_users reactions correct_reaction \
        other_family_users reactions correct_reaction := by
    unfold get_correct_users tally_users
    cases hf : findCorrectUsers reactions correct_reaction with
    | none => simp
    | some cu => simpa using foldl_sdiff_other_family correct_reaction reactions cu
  have hmem : ∀ u : String, u ∈ get_correct_users reactions correct_reaction ↔
      u ∈ tally_users reactions correct_reaction ∧
        ∀ e ∈ reactions, e.name ≠ correct_reaction →
          e.name ∈ valid_reactions correct_reaction → u ∉ e.users := by
    intro u
    rw [heq, Finset.mem_sdiff, mem_other_family_users]
    constructor
    · rintro ⟨ht, hno⟩
      exact ⟨ht, fun e he hne hfam hu => hno ⟨e, he, ⟨hne, hfam⟩, hu⟩⟩
    · rintro ⟨ht, hall⟩
      refine ⟨ht, ?_⟩
      rintro ⟨e, he, ⟨hne, hfam⟩, hu⟩
      exact hall e he hne hfam hu
  refine ⟨heq, hmem, ?_⟩
  intro e1 he1 e2 he2 hf1 hf2 hne u hu1 hu2 hmem'
  obtain ⟨-, hall⟩ := (hmem u).mp hmem'
  by_cases hc : e1.name = correct_reaction
  · exact hall e2 he2 (fun h2 => hne (by rw [hc, h2])) hf2 hu2
  · exact hall e1 he1 hc hf1 hu1

/-- C1 witness: on tally `{this: {u1,u2,u3}, not-this: {u2,u4}}` with correct
marker `this`, u1 is credited and the double-reactor u2 is not. -/
theorem claim_c1_witness :
    get_correct_users [⟨"this", {"u1", "u2", "u3"}⟩, ⟨"not-this", {"u2", "u4"}⟩]
        "this" = ({"u1", "u3"} : Finset String) ∧
    "u1" ∈ get_correct_users
        [⟨"this", {"u1", "u2", "u3"}⟩, ⟨"not-this", {"u2", "u4"}⟩] "this" ∧
    "u2" ∉ get_correct_users
        [⟨"this", {"u1", "u2", "u3"}⟩, ⟨"not-this", {"u2", "u4"}⟩] "this" := by
  refine ⟨?_, ?_, ?_⟩
  · rw [(claim_c1 [⟨"this", {"u1", "u2", "u3"}⟩, ⟨"not-this", {"u2", "u4"}⟩] "this").1]
    decide
  · exact ((claim_c1 [⟨"this", {"u1", "u2", "u3"}⟩, ⟨"not-this", {"u2", "u4"}⟩]
        "this").2.1 "u1").mpr ⟨by decide, by decide⟩
  · exact (claim_c1 [⟨"this", {"u1", "u2", "u3"}⟩, ⟨"not-this", {"u2", "u4"}⟩]
        "this").2.2 ⟨"this", {"u1", "u2", "u3"}⟩ (by decide)
      ⟨"not-this", {"u2", "u4"}⟩ (by decide) (by decide) (by decide) (by decide)
      "u2" (by decide) (by decide)

/-- C8: when the correct marker is absent from the tally, `get_correct_users`
returns the empty set (the first loop falls through and the function returns
`set()` rather than raising). -/
theorem claim_c8 (reactions : List ReactionUsers) (correct_reaction : String)
    (h : ∀ r ∈ reactions, r.name ≠ correct_reaction) :
    get_correct_users reactions correct_reaction = ∅ := by
  unfold get_correct_users
  rw [findCorrectUsers_eq_none reactions correct_reaction h]

/-- C8 witness: a tally holding only a `heart` reaction yields no correct
users for correct marker `this`. -/
theorem claim_c8_witness : get_correct_users [⟨"heart", {"u1"}⟩] "this" = ∅ :=
  claim_c8 [⟨"heart", {"u1"}⟩] "this" (by decide)

end Trivia

namespace Trivia

/-- Lookup commutes with the score-increment map, which preserves `user_id`. -/
theorem find?_map_incr (store : List UserScore) (correct_users : Finset String) (u : String) :
    (store.map (fun v =>
        if v.user_id ∈ correct_users then { v with score := v.score + 1 } else v)).find?
        (fun v => v.user_id == u)
      = (store.find? (fun v => v.user_id == u)).map
          (fun v =>
            if v.user_id ∈ correct_users then { v with score := v.score + 1 } else v) := by
  induction store with
  | nil => rfl
  | cons r rs ih =>
      have hid : ((if r.user_id ∈ correct_users then { r with score := r.score + 1 }
          else r) : UserScore).user_id = r.user_id := by
        by_cases h : r.user_id ∈ correct_users <;> simp [h]
      by_cases h : (r.user_id == u) = true
      · rw [List.map_cons, List.find?_cons_of_pos _ (by simpa [hid] using h),
          @List.find?_cons_of_pos _ (fun v => v.user_id == u) r rs h, Option.map_some']
      · rw [List.map_cons, List.find?_cons_of_neg _ (by simpa [hid] using h),
          @List.find?_cons_of_neg _ (fun v => v.user_id == u) r rs h, ih]

/-- Membership in the fold that collects `existing_user_ids`. -/
theorem mem_foldl_insert (l : List UserScore) (init : Finset String) (u : String) :
    u ∈ l.foldl (fun s v => insert v.user_id s) init ↔
      u ∈ init ∨ ∃ v ∈ l, v.user_id = u := by
  induction l generalizing init with
  | nil => simp
  | cons r rs ih =>
      simp only [List.foldl_cons, ih, Finset.mem_insert, List.mem_cons]
      constructor
      · rintro ((h | h) | ⟨v, hv, hvu⟩)
        · exact Or.inr ⟨r, Or.inl rfl, h.symm⟩
        · exact Or.inl h
        · exact Or.inr ⟨v, Or.inr hv, hvu⟩
      · rintro (h | ⟨v, rfl | hv, hvu⟩)
        · exact Or.inl (Or.inr h)
        · exact Or.inl (Or.inl hvu.symm)
        · exact Or.inr ⟨v, hv, hvu⟩

/-- Lookup in the freshly added rows when the user is among the new ids. -/
theorem find?_newRows_of_mem (l : List String) (u : String) (h : u ∈ l) :
    (l.map (fun uid => ({ user_id := uid, score := 1 } : UserScore))).find?
        (fun v => v.user_id == u) = some ⟨u, 1⟩ := by
  induction l with
  | nil => cases h
  | cons x xs ih =>
      by_cases hx : x = u
      · subst hx
        rw [List.map_cons]
        exact List.find?_cons_of_pos _ (by simp)
      · rw [List.map_cons, List.find?_cons_of_neg _ (by simp [hx])]
        exact ih ((List.mem_cons.mp h).resolve_left fun e => hx e.symm)

/-- Lookup in the freshly added rows misses users outside the new ids. -/
theorem find?_newRows_of_not_mem (l : List String) (u : String) (h : u ∉ l) :
    (l.map (fun uid => ({ user_id := uid, score := 1 } : UserScore))).find?
        (fun v => v.user_id == u) = none := by
  rw [List.find?_eq_none]
  intro v hv
  obtain ⟨uid, huid, rfl⟩ := List.mem_map.mp hv
  simp only [beq_iff_eq]
  intro he
  exact h (he ▸ huid)

/-- C5: `applyScores` increments the score of every correct user that has a
row, creates a score-1 row for every correct user without one, and leaves
every other user's record unchanged. -/
theorem claim_c5 (store : List UserScore) (correct_users : Finset String) (u : String) :
    getScore (applyScores store correct_users) u =
      if u ∈ correct_users then
        match getScore store u with
        | some s => some (s + 1)
        | none => some 1
      else getScore store u := by
  have happ : applyScores store correct_users
      = store.map (fun v =>
          if v.user_id ∈ correct_users then { v with score := v.score + 1 } else v)
        ++ ((correct_users \ ((store.filter (fun v => v.user_id ∈ correct_users)).foldl
            (fun s v => insert v.user_id s) ∅)).sort (· ≤ ·)).map
          (fun uid => { user_id := uid, score := 1 }) := rfl
  rw [getScore, happ, List.find?_append, find?_map_incr]
  cases hf : store.find? (fun v => v.user_id == u) with
  | some a =>
      have ha : a.user_id = u := by simpa using List.find?_some hf
      have hg : getScore store u = some a.score := by rw [getScore, hf]; rfl
      rw [hg]
      by_cases hu : u ∈ correct_users
      · simp [hu, ha]
      · simp [hu, ha]
  | none =>
      have hg : getScore store u = none := by rw [getScore, hf]; rfl
      have hnone : ∀ v ∈ store, v.user_id ≠ u := by
        intro v hv hvu
        have h2 := List.find?_eq_none.mp hf v hv
        simp [hvu] at h2
      have hids : u ∉ (store.filter (fun v => v.user_id ∈ correct_users)).foldl
          (fun s v => insert v.user_id s) (∅ : Finset String) := by
        rw [mem_foldl_insert]
        rintro (h | ⟨v, hv, hvu⟩)
        · exact absurd h (Finset.not_mem_empty u)
        · exact hnone v (List.mem_of_mem_filter hv) hvu
      rw [hg, Option.map_none', Option.none_or]
      by_cases hu : u ∈ correct_users
      · have hmem : u ∈ (correct_users \ ((store.filter
            (fun v => v.user_id ∈ correct_users)).foldl
              (fun s v => insert v.user_id s) (∅ : Finset String))).sort (· ≤ ·) :=
          (Finset.mem_sort (fun a b : String => a ≤ b)).mpr (Finset.mem_sdiff.mpr ⟨hu, hids⟩)
        rw [find?_newRows_of_mem _ _ hmem]
        simp [hu]
      · have hmem : u ∉ (correct_users \ ((store.filter
            (fun v => v.user_id ∈ correct_users)).foldl
              (fun s v => insert v.user_id s) (∅ : Finset String))).sort (· ≤ ·) := fun hx =>
          hu (Finset.mem_sdiff.mp ((Finset.mem_sort (fun a b : String => a ≤ b)).mp hx)).1
        rw [find?_newRows_of_not_mem _ _ hmem]
        simp [hu]

/-- C5 witness: on a store where u1 has score 4 and u3 has no row, applying
the correct set `{u1, u3}` yields u1 at 5 and u3 at 1. -/
theorem claim_c5_witness :
    getScore (applyScores [⟨"u1", 4⟩] ({"u1", "u3"} : Finset String)) "u1" = some 5 ∧
    getScore (applyScores [⟨"u1", 4⟩] ({"u1", "u3"} : Finset String)) "u3" = some 1 := by
  constructor
  · rw [claim_c5]
    decide
  · rw [claim_c5]
    decide

/-- C2: when the reveal-time reaction query is not ok, the scheduled callback
leaves the store untouched, posts the failure report, and still posts the
answer message afterwards. -/
theorem claim_c2 (q : ReactionQuery) (store : List UserScore)
    (correct_reaction answer_message : String)
    (h : q.ok = false ∨ q.type ≠ "message") :
    post_answer_update_score q store correct_reaction answer_message =
      (store, ["There was a problem updating the scores", answer_message]) := by
  unfold post_answer_update_score update_leaderboard
  rw [if_pos h]
  rfl

/-- C2 witness: a failed query over an empty store posts the report and then
the answer, changing nothing. -/
theorem claim_c2_witness :
    post_answer_update_score ⟨false, "message", []⟩ [] "this" "answer" =
      ([], ["There was a problem updating the scores", "answer"]) :=
  claim_c2 ⟨false, "message", []⟩ [] "this" "answer" (Or.inl rfl)

end Trivia

namespace Trivia

/-- C9: a question built from a provider record is classified Boolean exactly
when the record carries one incorrect answer, and MultipleChoice otherwise. -/
theorem claim_c9 (r : ProviderQuestion) :
    ((get_question_data r).is_boolean = true ↔ r.incorrect_answers.length = 1) ∧
    ((get_question_data r).is_boolean = false ↔ r.incorrect_answers.length ≠ 1) := by
  constructor
  · simp [get_question_data]
  · simp [get_question_data]

/-- C4 counterexample: a provider record with four incorrect answers is
classified MultipleChoice yet produces five candidate answers, so the claimed
4-entry bound does not hold of the code, which never caps `answers`; and a
record repeating the correct answer among the incorrect ones yields the
correct answer twice, so the exactly-once part also needs the record to be
duplicate-free. -/
theorem claim_c4_counterexample :
    (get_question_data ⟨"multiple", "q", "a", ["b", "c", "d", "e"]⟩).is_boolean = false ∧
    ¬ (get_question_data ⟨"multiple", "q", "a", ["b", "c", "d", "e"]⟩).answers.length ≤ 4 ∧
    (get_question_data ⟨"multiple", "q", "a", ["a", "b"]⟩).answers.count "a" = 2 := by
  refine ⟨by decide, by decide, by decide⟩

/-- C4 amended: when the record's incorrect answers do not contain the correct
answer, every shuffle of `answers` contains the correct answer exactly once; a
Boolean question has exactly 2 candidate answers; and the candidate list has
`k + 1` entries, hence at most 4 whenever the record carries at most 3
incorrect answers (as the provider's multiple-choice records do) — the code
itself imposes no `min(4, markers)` bound. -/
theorem claim_c4 (r : ProviderQuestion) (shuffled : List String)
    (hperm : shuffled.Perm (get_question_data r).answers)
    (hc : r.correct_answer ∉ r.incorrect_answers) :
    shuffled.count r.correct_answer = 1 ∧
    ((get_question_data r).is_boolean = true → shuffled.length = 2) ∧
    ((get_question_data r).is_boolean = false → r.incorrect_answers.length ≤ 3 →
      shuffled.length ≤ 4) := by
  have hans : (get_question_data r).answers = r.correct_answer :: r.incorrect_answers := rfl
  have hlen : shuffled.length = r.incorrect_answers.length + 1 := by
    rw [hperm.length_eq, hans, List.length_cons]
  refine ⟨?_, ?_, ?_⟩
  · rw [hperm.count_eq, hans, List.count_cons_self, List.count_eq_zero.mpr hc]
  · intro hb
    have hone : r.incorrect_answers.length = 1 := by
      simpa [get_question_data] using hb
    omega
  · intro _ hk
    omega

/-- C4 witness: a standard three-incorrect record yields the correct answer
once among four candidates. -/
theorem claim_c4_witness :
    (get_question_data ⟨"multiple", "q", "a", ["b", "c", "d"]⟩).answers.count "a" = 1 ∧
    (get_question_data ⟨"multiple", "q", "a", ["b", "c", "d"]⟩).answers.length ≤ 4 :=
  ⟨(claim_c4 ⟨"multiple", "q", "a", ["b", "c", "d"]⟩ _ (List.Perm.refl _) (by decide)).1,
   (claim_c4 ⟨"multiple", "q", "a", ["b", "c", "d"]⟩ _ (List.Perm.refl _) (by decide)).2.2
     (by decide) (by decide)⟩

/-- C3 counterexample: with store order `[(u1,5),(u2,9)]` the rendered rows
keep that order, so the higher-scored u2 appears after u1 and the
descending-sort property fails — `show_leaderboard` never sorts. -/
theorem claim_c3_counterexample :
    leaderboard_rows [⟨"u1", 5⟩, ⟨"u2", 9⟩] id = [("u1", 5), ("u2", 9)] ∧
    ¬ sortedByDescendingScore (leaderboard_rows [⟨"u1", 5⟩, ⟨"u2", 9⟩] id) := by
  refine ⟨rfl, ?_⟩
  unfold sortedByDescendingScore
  decide

/-- C3 amended: `show_leaderboard` renders one row per score record in exactly
the order the store query returns them, pairing each record's display name
with its score; it applies no sort. -/
theorem claim_c3 (user_scores : List UserScore) (display_name : String → String) :
    leaderboard_rows user_scores display_name =
      user_scores.map (fun u => (display_name u.user_id, u.score)) := by
  unfold leaderboard_rows
  rw [List.zip_map']

/-- C6: the interactive delay is clamped into `[MIN_SECONDS, MAX_SECONDS]`
(below becomes 5, above becomes 300, in-range unchanged), while the cron
round uses exactly `CRON_SECONDS = 600`, which exceeds the clamp maximum. -/
theorem claim_c6 (s : Int) :
    (s < MIN_SECONDS → clamp_seconds s = MIN_SECONDS) ∧
    (MAX_SECONDS < s → clamp_seconds s = MAX_SECONDS) ∧
    (MIN_SECONDS ≤ s → s ≤ MAX_SECONDS → clamp_seconds s = s) ∧
    cron_job_seconds = 600 ∧ MAX_SECONDS < cron_job_seconds := by
  unfold clamp_seconds cron_job_seconds MIN_SECONDS MAX_SECONDS CRON_SECONDS
  refine ⟨fun h => ?_, fun h => ?_, fun h1 h2 => ?_, rfl, by norm_num⟩
  · simp only [min_def, max_def]
    split_ifs <;> omega
  · simp only [min_def, max_def]
    split_ifs <;> omega
  · simp only [min_def, max_def]
    split_ifs <;> omega

/-- C6 witness: 1 clamps to 5, 10000 clamps to 300, 30 stays, cron uses 600. -/
theorem claim_c6_witness :
    clamp_seconds 1 = 5 ∧ clamp_seconds 10000 = 300 ∧ clamp_seconds 30 = 30 ∧
    cron_job_seconds = 600 :=
  ⟨(claim_c6 1).1 (by decide), (claim_c6 10000).2.1 (by decide),
   (claim_c6 30).2.2.1 (by decide) (by decide), (claim_c6 0).2.2.2.1⟩

/-- C7: for any delay of at least `MIN_SECONDS`, the interval job registered
by `schedule_action` fires once at `now + secs` (within the end date
`now + secs + 1`) and every later firing `now + k*secs`, `k ≥ 2`, lies
strictly past the end date, so repetition is impossible. -/
theorem claim_c7 (now secs : Int) (h : MIN_SECONDS ≤ secs) :
    interval_job_fires now secs 1 ∧
      ∀ k : Nat, 2 ≤ k → ¬ interval_job_fires now secs k := by
  have h5 : (5 : Int) ≤ secs := h
  constructor
  · unfold interval_job_fires interval_fire_time schedule_end_date
    push_cast
    omega
  · intro k hk
    unfold interval_job_fires interval_fire_time schedule_end_date
    intro hle
    have hk2 : (2 : Int) ≤ (k : Int) := by exact_mod_cast hk
    have hsec0 : (0 : Int) ≤ secs := by linarith
    have hmul : 2 * secs ≤ (k : Int) * secs := mul_le_mul_of_nonneg_right hk2 hsec0
    linarith

/-- C7 witness: with the minimum delay of 5 seconds the job fires at
`now + 5` and cannot fire again at `now + 10`. -/
theorem claim_c7_witness :
    MIN_SECONDS ≤ (5 : Int) ∧ interval_job_fires 0 5 1 ∧ ¬ interval_job_fires 0 5 2 :=
  ⟨by decide, (claim_c7 0 5 (by decide)).1, (claim_c7 0 5 (by decide)).2 2 (by decide)⟩

/-- C10: on a store with no score records the display-name list is empty, the
longest-name computation (`max` over an empty sequence) fails, and no
leaderboard message is produced. -/
theorem claim_c10 (display_name : String → String) :
    maxByLen ([] : List String) = none ∧
    show_leaderboard_message [] display_name = none :=
  ⟨rfl, rfl⟩

end Trivia
